import Mathlib

/-!
Verification of the query-string builder in `src/script.js`
(fukaraca/fb-marketplace-qb).

The core under specification is the `updateUrl` routine (source lines
65–120): it takes a snapshot of form field values, encodes each field into
URL query parameters according to per-field rules, serializes the parameter
list with `URLSearchParams.toString()`, normalizes the base URL to end with
`/`, and produces the final URL.

The shallow embedding below translates that routine: strings are Lean
`String`s, the `URLSearchParams` object is an ordered list of name/value
pairs with the WHATWG `set`/`append` operations, and the form is abstracted
— as in the spec's data model — to a `FieldValueSnapshot` (key to ordered
raw values, one entry per key, mirroring `new Set(formData.keys())` +
`formData.getAll(key)`) plus a `FieldDescriptor` table carrying what the
code reads off the DOM element (`element.type`, `element.dataset.array`).
-/

set_option autoImplicit false

namespace FbQB

/-- JavaScript whitespace as trimmed by `String.prototype.trim`:
the ECMAScript WhiteSpace and LineTerminator code points. -/
def isJsWhitespace (c : Char) : Bool :=
  c = ' ' || c = '\t' || c = '\n' || c = '\r' ||
  c.toNat = 0x0B || c.toNat = 0x0C || c.toNat = 0xA0 || c.toNat = 0xFEFF ||
  c.toNat = 0x1680 || (0x2000 ≤ c.toNat && c.toNat ≤ 0x200A) ||
  c.toNat = 0x2028 || c.toNat = 0x2029 || c.toNat = 0x202F ||
  c.toNat = 0x205F || c.toNat = 0x3000

/-- `s.trim()` (source line 90): drop leading and trailing JavaScript
whitespace. -/
def jsTrim (s : String) : String :=
  ⟨((s.data.dropWhile isJsWhitespace).reverse.dropWhile isJsWhitespace).reverse⟩

/-- Accumulator-passing splitter behind `jsSplitComma`; `acc` holds the
current piece reversed. -/
def splitCommaAux : List Char → List Char → List String
  | [], acc => [⟨acc.reverse⟩]
  | c :: cs, acc =>
    if c = ',' then ⟨acc.reverse⟩ :: splitCommaAux cs [] else splitCommaAux cs (c :: acc)

/-- `value.split(',')` (source line 89): split on every comma, keeping empty
pieces (JavaScript yields `["a", " b ", "", "c"]` for `"a, b ,,c"`). -/
def jsSplitComma (s : String) : List String :=
  splitCommaAux s.data []

/-- Per-field metadata the encoding logic consults. `type` models
`element.type` (line 84) and `dataArray` models `element.dataset.array`
(line 88); both are free-form strings in the DOM. The spec's
`kind = checkbox` is `type = "checkbox"`, and
`arrayEncoding = comma-separated` is `dataArray = some "comma"`. -/
structure FieldDescriptor where
  key : String
  type : String
  dataArray : Option String
deriving DecidableEq, Repr

/-- `element && element.type === 'checkbox'` (line 84); a missing element
(`none`) is falsy. -/
def isCheckbox : Option FieldDescriptor → Bool
  | some d => d.type = "checkbox"
  | none => false

/-- `element && element.dataset.array === 'comma'` (line 88); a missing
element or missing data attribute is falsy. -/
def isCommaArray : Option FieldDescriptor → Bool
  | some d => d.dataArray = some "comma"
  | none => false

/-- `form.elements[key]` (line 73): look the field's descriptor up by key. -/
def findDesc (ds : List FieldDescriptor) (k : String) : Option FieldDescriptor :=
  ds.find? (fun d => d.key = k)

/-- The spec's QueryParameterSet: an ordered list of name/value pairs, the
state of the `URLSearchParams` object. -/
abbrev QueryParameterSet := List (String × String)

/-- The spec's FieldValueSnapshot: each key with its ordered raw values,
one entry per key. -/
abbrev FieldValueSnapshot := List (String × List String)

/-- The spec's BuildResult. -/
structure BuildResult where
  queryString : String
  finalUrl : String
deriving DecidableEq, Repr

/-- Removal of every pair named `k`, as `URLSearchParams.set` does to the
duplicates of the name it sets. -/
def removeKey (ps : QueryParameterSet) (k : String) : QueryParameterSet :=
  ps.filter (fun p => p.1 ≠ k)

/-- `params.set(key, value)` (lines 85 and 96): replace the value of the
first pair named `key` and drop later ones, or append if the name is new. -/
def setParam : QueryParameterSet → String → String → QueryParameterSet
  | [], k, v => [(k, v)]
  | p :: rest, k, v =>
    if p.1 = k then (k, v) :: removeKey rest k else p :: setParam rest k v

/-- `params.append(key, v)` (lines 92 and 102). -/
def appendParam (ps : QueryParameterSet) (k v : String) : QueryParameterSet :=
  ps ++ [(k, v)]

/-- Body of the `for (const key of keys)` loop (lines 72–105): how one
field's raw values update the parameter list. -/
def processKey (ps : QueryParameterSet) (key : String)
    (desc : Option FieldDescriptor) (allValues : List String) : QueryParameterSet :=
  match allValues with
  | [] => ps
  | [value] =>
    if value = "" then ps
    else if isCheckbox desc then setParam ps key "true"
    else if isCommaArray desc then
      (((jsSplitComma value).map jsTrim).filter (fun s => s != "")).foldl
        (fun acc v => appendParam acc key v) ps
    else setParam ps key value
  | _ =>
    allValues.foldl (fun acc v => if v = "" then acc else appendParam acc key v) ps

/-- The spec's `encodeField`: the pairs a single field contributes, read off
the same loop body (lines 79–104). `processKey_eq_append` proves that
`processKey` appends exactly these pairs whenever the key is not already in
the parameter list — which is the case in `updateUrl`, where each key is
processed once. -/
def encodeField (key : String) (desc : Option FieldDescriptor)
    (values : List String) : List (String × String) :=
  match values with
  | [] => []
  | [value] =>
    if value = "" then []
    else if isCheckbox desc then [(key, "true")]
    else if isCommaArray desc then
      (((jsSplitComma value).map jsTrim).filter (fun s => s != "")).map (fun v => (key, v))
    else [(key, value)]
  | _ => (values.filter (fun v => v != "")).map (fun v => (key, v))

/-- UTF-8 bytes of one code point; `URLSearchParams` serialization
percent-encodes the UTF-8 encoding of names and values. -/
def utf8Bytes (n : Nat) : List Nat :=
  if n < 0x80 then [n]
  else if n < 0x800 then [0xC0 + n / 0x40, 0x80 + n % 0x40]
  else if n < 0x10000 then [0xE0 + n / 0x1000, 0x80 + n / 0x40 % 0x40, 0x80 + n % 0x40]
  else [0xF0 + n / 0x40000, 0x80 + n / 0x1000 % 0x40, 0x80 + n / 0x40 % 0x40, 0x80 + n % 0x40]

/-- Upper-case hexadecimal digit. -/
def hexDigit (n : Nat) : Char :=
  if n < 10 then Char.ofNat (0x30 + n) else Char.ofNat (0x41 + (n - 10))

/-- `%XY` percent-escape of one byte. -/
def percentByte (b : Nat) : List Char :=
  ['%', hexDigit (b / 16), hexDigit (b % 16)]

/-- One byte under the application/x-www-form-urlencoded serializer used by
`URLSearchParams.toString()` (line 107): `*`, `-`, `.`, `_` and ASCII
alphanumerics pass through, the space byte becomes `+`, every other byte is
percent-encoded. -/
def formUrlencodedByte (b : Nat) : List Char :=
  if b = 0x20 then ['+']
  else if b = 0x2A || b = 0x2D || b = 0x2E || (0x30 ≤ b && b ≤ 0x39) ||
      (0x41 ≤ b && b ≤ 0x5A) || b = 0x5F || (0x61 ≤ b && b ≤ 0x7A) then
    [Char.ofNat b]
  else percentByte b

/-- application/x-www-form-urlencoded encoding of a whole string. -/
def formUrlencode (s : String) : String :=
  ⟨(s.data.flatMap (fun c => utf8Bytes c.toNat)).flatMap formUrlencodedByte⟩

/-- `params.toString()` (line 107): the WHATWG urlencoded serializer —
each pair as encoded name, `=`, encoded value, with `&` before every pair
after the first. -/
def serializeParams (ps : QueryParameterSet) : String :=
  ps.foldl
    (fun acc p =>
      (if acc = "" then "" else acc ++ "&") ++
        formUrlencode p.1 ++ "=" ++ formUrlencode p.2) ""

/-- `baseUrl.endsWith('/')` (line 111). -/
def endsWithSlash (s : String) : Bool :=
  s.data.getLast? = some '/'

/-- The parameter-building loop of `updateUrl` (lines 67–105) over the
snapshot's keys in order. -/
def buildParams (snapshot : FieldValueSnapshot)
    (descriptors : List FieldDescriptor) : QueryParameterSet :=
  snapshot.foldl (fun ps kv => processKey ps kv.1 (findDesc descriptors kv.1) kv.2) []

/-- The core of `updateUrl` (lines 65–120), the spec's `build`: from a
snapshot, a descriptor table and the base URL to a `BuildResult`. -/
def updateUrl (snapshot : FieldValueSnapshot) (descriptors : List FieldDescriptor)
    (baseUrl : String) : BuildResult :=
  let paramString := serializeParams (buildParams snapshot descriptors)
  let base := if endsWithSlash baseUrl then baseUrl else baseUrl ++ "/"
  { queryString := paramString
    finalUrl := base ++ (if paramString = "" then "" else "?" ++ paramString) }

/-- Modelled from the spec: "standard URL component percent-encoding" read
as ECMAScript `encodeURIComponent` — `A`–`Z`, `a`–`z`, `0`–`9` and
`- _ . ! ~ * ' ( )` pass through and every other byte of the UTF-8 encoding
is percent-escaped (space becomes `%20`). Used only to compare the spec's
wording for serialization with the source's serializer. -/
def componentSafeByte (b : Nat) : Bool :=
  (0x30 ≤ b && b ≤ 0x39) || (0x41 ≤ b && b ≤ 0x5A) || (0x61 ≤ b && b ≤ 0x7A) ||
  b = 0x2D || b = 0x5F || b = 0x2E || b = 0x21 || b = 0x7E || b = 0x2A ||
  b = 0x27 || b = 0x28 || b = 0x29

/-- Modelled from the spec: `encodeURIComponent` percent-encoding of a
string. -/
def encodeURIComponent (s : String) : String :=
  ⟨(s.data.flatMap (fun c => utf8Bytes c.toNat)).flatMap
    (fun b => if componentSafeByte b then [Char.ofNat b] else percentByte b)⟩

/-- Join a list of strings with `&` between consecutive elements. -/
def joinAmp : List String → String
  | [] => ""
  | [x] => x
  | x :: xs => x ++ "&" ++ joinAmp xs

/-- Modelled from the spec: serialization as the spec's words describe it —
component-percent-encode every name and value, join name and value with `=`
and pairs with `&`. Compared against `serializeParams` for claim C5. -/
def specSerializeParams (ps : QueryParameterSet) : String :=
  joinAmp (ps.map (fun p => encodeURIComponent p.1 ++ "=" ++ encodeURIComponent p.2))

end FbQB

namespace FbQB

/-! ### Bridging lemmas: the loop body appends exactly `encodeField`'s pairs -/

/-- `params.set` on a name that is not yet in the list is a plain append. -/
theorem setParam_eq_append (ps : QueryParameterSet) (k v : String)
    (h : ∀ p ∈ ps, p.1 ≠ k) : setParam ps k v = ps ++ [(k, v)] := by
  induction ps with
  | nil => rfl
  | cons p rest ih =>
    have hp : p.1 ≠ k := h p (List.mem_cons_self p rest)
    show (if p.1 = k then (k, v) :: removeKey rest k else p :: setParam rest k v) =
      (p :: rest) ++ [(k, v)]
    rw [if_neg hp, ih (fun q hq => h q (List.mem_cons_of_mem p hq))]
    rfl

/-- Folding `params.append` over a list of values appends one pair each. -/
theorem foldl_appendParam (k : String) (l : List String) (ps : QueryParameterSet) :
    l.foldl (fun acc v => appendParam acc k v) ps = ps ++ l.map (fun v => (k, v)) := by
  induction l generalizing ps with
  | nil => simp
  | cons x xs ih =>
    rw [List.foldl_cons, ih]
    simp [appendParam]

/-- Folding the guarded `params.append` of the multi-value branch appends one
pair per non-empty value, in order. -/
theorem foldl_appendParam_filter (k : String) (l : List String) (ps : QueryParameterSet) :
    l.foldl (fun acc v => if v = "" then acc else appendParam acc k v) ps =
      ps ++ (l.filter (fun v => v != "")).map (fun v => (k, v)) := by
  induction l generalizing ps with
  | nil => simp
  | cons x xs ih =>
    rw [List.foldl_cons]
    by_cases hx : x = ""
    · rw [if_pos hx, ih]
      simp [List.filter_cons, hx]
    · rw [if_neg hx, ih]
      simp [List.filter_cons, hx, appendParam]

/-- The loop body (lines 72–105) appends exactly the pairs of `encodeField`
whenever its key is not already in the parameter list — which holds on every
iteration of `updateUrl`, since the loop visits each key once. -/
theorem processKey_eq_append (ps : QueryParameterSet) (k : String)
    (desc : Option FieldDescriptor) (vs : List String)
    (h : ∀ p ∈ ps, p.1 ≠ k) :
    processKey ps k desc vs = ps ++ encodeField k desc vs := by
  match vs with
  | [] => simp [processKey, encodeField]
  | [v] =>
    show (if v = "" then ps
        else if isCheckbox desc then setParam ps k "true"
        else if isCommaArray desc then
          (((jsSplitComma v).map jsTrim).filter (fun s => s != "")).foldl
            (fun acc w => appendParam acc k w) ps
        else setParam ps k v) =
      ps ++ (if v = "" then []
        else if isCheckbox desc then [(k, "true")]
        else if isCommaArray desc then
          (((jsSplitComma v).map jsTrim).filter (fun s => s != "")).map (fun w => (k, w))
        else [(k, v)])
    by_cases hv : v = ""
    · simp [hv]
    · by_cases hcb : isCheckbox desc = true
      · simp [hv, hcb, setParam_eq_append ps k "true" h]
      · by_cases hca : isCommaArray desc = true
        · simp [hv, hcb, hca, foldl_appendParam]
        · simp [hv, hcb, hca, setParam_eq_append ps k v h]
  | v₁ :: v₂ :: rest =>
    show (v₁ :: v₂ :: rest).foldl (fun acc v => if v = "" then acc else appendParam acc k v) ps =
      ps ++ ((v₁ :: v₂ :: rest).filter (fun v => v != "")).map (fun v => (k, v))
    rw [foldl_appendParam_filter]

/-! ### C1–C4: the per-field encoding rules -/

/-- C1: for a field whose descriptor has comma-separated array encoding (a
non-checkbox field, per the rule priority) holding a single non-empty value,
`encodeField` splits the value on `,`, trims surrounding whitespace from
each piece, drops pieces that become empty, and emits one `(key, piece)`
pair per surviving piece in split order; the value `"a, b ,,c"` yields the
pieces `a`, `b`, `c`, and when every piece is dropped nothing is emitted. -/
theorem c1_comma_split (key v : String) (d : FieldDescriptor)
    (harr : d.dataArray = some "comma") (hkind : d.type ≠ "checkbox")
    (hv : v ≠ "") :
    encodeField key (some d) [v] =
      (((jsSplitComma v).map jsTrim).filter (fun s => s != "")).map (fun p => (key, p)) ∧
    encodeField key (some d) ["a, b ,,c"] = [(key, "a"), (key, "b"), (key, "c")] ∧
    encodeField key (some d) [" , , "] = [] := by
  have hcb : isCheckbox (some d) = false := by simp [isCheckbox, hkind]
  have hca : isCommaArray (some d) = true := by simp [isCommaArray, harr]
  have e1 : ((jsSplitComma "a, b ,,c").map jsTrim).filter (fun s => s != "") =
      ["a", "b", "c"] := by decide
  have e2 : ((jsSplitComma " , , ").map jsTrim).filter (fun s => s != "") = [] := by
    decide
  refine ⟨by simp [encodeField, hv, hcb, hca], ?_, ?_⟩
  · simp [encodeField, hcb, hca, e1]
  · simp [encodeField, hcb, hca, e2]

/-- Witness for C1: a concrete comma-encoded text field. -/
theorem c1_comma_split_witness :
    encodeField "keywords" (some ⟨"keywords", "text", some "comma"⟩) ["a, b ,,c"] =
      [("keywords", "a"), ("keywords", "b"), ("keywords", "c")] :=
  (c1_comma_split "keywords" "x" ⟨"keywords", "text", some "comma"⟩ rfl
    (by decide) (by decide)).2.1

/-- C2: a checkbox field with a single non-empty raw value contributes
exactly the pair `(key, "true")` whatever the raw value is, and a checkbox
absent from the snapshot (no recorded values) contributes nothing. -/
theorem c2_checkbox_true (key v : String) (d : FieldDescriptor)
    (hkind : d.type = "checkbox") :
    (v ≠ "" → encodeField key (some d) [v] = [(key, "true")]) ∧
    encodeField key (some d) [] = [] := by
  refine ⟨fun hv => ?_, rfl⟩
  simp [encodeField, hv, isCheckbox, hkind]

/-- Witness for C2: a concrete checked checkbox (raw DOM value `"on"`). -/
theorem c2_checkbox_true_witness :
    encodeField "availability" (some ⟨"availability", "checkbox", none⟩) ["on"] =
      [("availability", "true")] :=
  (c2_checkbox_true "availability" "on" ⟨"availability", "checkbox", none⟩ rfl).1
    (by decide)

/-- C3: a field whose snapshot holds more than one value contributes one
pair per non-empty value, preserving order and dropping empty entries;
`["a", "", "b"]` yields `[(key, "a"), (key, "b")]`. -/
theorem c3_multi_value (key : String) (desc : Option FieldDescriptor)
    (vs : List String) (h : 2 ≤ vs.length) :
    encodeField key desc vs = (vs.filter (fun v => v != "")).map (fun v => (key, v)) ∧
    encodeField key desc ["a", "", "b"] = [(key, "a"), (key, "b")] := by
  constructor
  · match vs with
    | [] => simp at h
    | [v] => simp at h
    | v₁ :: v₂ :: rest => rfl
  · have e : (["a", "", "b"].filter (fun v => v != "")).map
        (fun v => ((key, v) : String × String)) = [(key, "a"), (key, "b")] := by
      simp
    exact e ▸ rfl

/-- Witness for C3: a concrete checkbox group with an empty entry. -/
theorem c3_multi_value_witness :
    encodeField "itemCondition" none ["a", "", "b"] =
      [("itemCondition", "a"), ("itemCondition", "b")] :=
  (c3_multi_value "itemCondition" none ["a", "", "b"] (by decide)).2

/-- C4: a single empty-string value contributes nothing whatever the
descriptor is, and a single non-empty value of a field that is neither a
checkbox nor comma-encoded — including a missing descriptor or any
unrecognized field type, which fall through to the standard rule —
contributes exactly the unmodified pair `(key, value)`. -/
theorem c4_standard_single (key v : String) (desc : Option FieldDescriptor) :
    encodeField key desc [""] = [] ∧
    (isCheckbox desc = false → isCommaArray desc = false → v ≠ "" →
      encodeField key desc [v] = [(key, v)]) := by
  refine ⟨rfl, fun h1 h2 hv => ?_⟩
  simp [encodeField, hv, h1, h2]

/-- Witness for C4: a field of unrecognized type `"range"`. -/
theorem c4_standard_single_witness :
    encodeField "minPrice" (some ⟨"minPrice", "range", none⟩) ["25"] =
      [("minPrice", "25")] :=
  (c4_standard_single "minPrice" "25" (some ⟨"minPrice", "range", none⟩)).2
    (by decide) (by decide) (by decide)

end FbQB

namespace FbQB

/-! ### Serialization -/

/-- A string containing a one-character separator is not empty. -/
theorem append_sep_ne_empty (a s b : String) (hs : s.length = 1) : a ++ s ++ b ≠ "" := by
  intro he
  have h1 := congrArg String.length he
  rw [String.length_append, String.length_append, hs] at h1
  have h3 : ("" : String).length = 0 := rfl
  omega

/-- A serialized pair always contains the `=` separator, hence is not empty. -/
theorem pair_ne_empty (a b : String) : a ++ "=" ++ b ≠ "" :=
  append_sep_ne_empty a "=" b rfl

/-- Splitting the leading `&`-joined chunk off a join. -/
theorem joinAmp_cons_append (a b : String) (l : List String) :
    joinAmp ((a ++ "&" ++ b) :: l) = a ++ "&" ++ joinAmp (b :: l) := by
  cases l with
  | nil => rfl
  | cons x xs => simp [joinAmp, String.append_assoc]

/-- The serializer's fold, started from a non-empty accumulator, joins the
remaining encoded pairs onto it with `&`. -/
theorem serializeParams_foldl (ps : QueryParameterSet) (acc : String) (hacc : acc ≠ "") :
    ps.foldl
      (fun a p =>
        (if a = "" then "" else a ++ "&") ++ formUrlencode p.1 ++ "=" ++ formUrlencode p.2)
      acc =
    joinAmp (acc :: ps.map (fun p => formUrlencode p.1 ++ "=" ++ formUrlencode p.2)) := by
  induction ps generalizing acc with
  | nil => rfl
  | cons p rest ih =>
    rw [List.foldl_cons, if_neg hacc]
    have hstep : (acc ++ "&") ++ formUrlencode p.1 ++ "=" ++ formUrlencode p.2 =
        acc ++ "&" ++ (formUrlencode p.1 ++ "=" ++ formUrlencode p.2) := by
      simp [String.append_assoc]
    rw [hstep, ih _ (append_sep_ne_empty acc "&" _ rfl), List.map_cons,
      joinAmp_cons_append]
    rfl

/-- `params.toString()` equals the encoded pairs joined with `&`. -/
theorem serializeParams_eq_joinAmp (ps : QueryParameterSet) :
    serializeParams ps =
      joinAmp (ps.map (fun p => formUrlencode p.1 ++ "=" ++ formUrlencode p.2)) := by
  cases ps with
  | nil => rfl
  | cons p rest =>
    show List.foldl _ _ (p :: rest) = _
    rw [List.foldl_cons]
    have h0 : ((if ("" : String) = "" then "" else "" ++ "&") ++
        formUrlencode p.1 ++ "=" ++ formUrlencode p.2) =
        formUrlencode p.1 ++ "=" ++ formUrlencode p.2 := by
      rw [if_pos rfl]
      simp
    rw [h0, serializeParams_foldl rest _ (pair_ne_empty _ _), List.map_cons]

/-! ### C5: how the parameter set is serialized -/

/-- C5 counterexample: on the single pair `("k", "a b")` the code's
serializer (`URLSearchParams.toString()`, used by `build` for the query
string) produces `"k=a+b"`, while serializing with standard URL component
percent-encoding (`encodeURIComponent`) produces `"k=a%20b"`: the space is
encoded as `+`, not percent-encoded. -/
theorem c5_counterexample :
    (updateUrl [("k", ["a b"])] [] "https://x.com/").queryString = "k=a+b" ∧
    specSerializeParams [("k", "a b")] = "k=a%20b" ∧
    ("k=a+b" : String) ≠ "k=a%20b" := by
  refine ⟨by decide, by decide, by decide⟩

/-- C5 (amended): `build` serializes the QueryParameterSet with the
application/x-www-form-urlencoded encoding — the space byte becomes `+` and
every byte outside `*`, `-`, `.`, `_` and the ASCII alphanumerics is
percent-encoded over UTF-8 — joining each name and value with `=` and the
pairs with `&`; an empty QueryParameterSet serializes to the empty
string. -/
theorem c5_serialization (snapshot : FieldValueSnapshot)
    (descriptors : List FieldDescriptor) (baseUrl : String) :
    (updateUrl snapshot descriptors baseUrl).queryString =
      joinAmp ((buildParams snapshot descriptors).map
        (fun p => formUrlencode p.1 ++ "=" ++ formUrlencode p.2)) ∧
    serializeParams [] = "" := by
  exact ⟨serializeParams_eq_joinAmp _, rfl⟩

/-! ### C6: base-URL normalization and final URL assembly -/

/-- C6: `build` appends `/` to the base URL exactly when it does not already
end with `/`, and the final URL is the normalized base followed by `?` and
the query string when the query string is non-empty, and by nothing
otherwise; an empty snapshot with base `"https://x.com/"` gives query string
`""` and final URL `"https://x.com/"` (no `?`), and base
`"https://x.com/market"` gives final URL `"https://x.com/market/"`. -/
theorem c6_finalUrl (snapshot : FieldValueSnapshot)
    (descriptors : List FieldDescriptor) (baseUrl : String) :
    ((updateUrl snapshot descriptors baseUrl).queryString = "" →
      (updateUrl snapshot descriptors baseUrl).finalUrl =
        (if endsWithSlash baseUrl then baseUrl else baseUrl ++ "/")) ∧
    ((updateUrl snapshot descriptors baseUrl).queryString ≠ "" →
      (updateUrl snapshot descriptors baseUrl).finalUrl =
        (if endsWithSlash baseUrl then baseUrl else baseUrl ++ "/") ++ "?" ++
          (updateUrl snapshot descriptors baseUrl).queryString) ∧
    updateUrl [] descriptors "https://x.com/" = ⟨"", "https://x.com/"⟩ ∧
    updateUrl [] descriptors "https://x.com/market" = ⟨"", "https://x.com/market/"⟩ := by
  refine ⟨fun hq => ?_, fun hq => ?_, ?_, ?_⟩
  · simp only [updateUrl] at hq ⊢
    rw [hq]
    simp
  · simp only [updateUrl] at hq ⊢
    rw [if_neg hq]
    simp [String.append_assoc]
  · rfl
  · rfl

/-- Witness for C6 at a concrete base URL already ending in `/`. -/
theorem c6_finalUrl_witness :
    (updateUrl [] [] "https://x.com/").finalUrl = "https://x.com/" :=
  ((c6_finalUrl [] [] "https://x.com/").1 (by decide)).trans (by decide)

/-! ### C7: determinism -/

/-- C7: `build` is a pure function of snapshot, descriptor table and base
URL — two invocations on identical inputs return identical results. -/
theorem c7_deterministic (s₁ s₂ : FieldValueSnapshot)
    (d₁ d₂ : List FieldDescriptor) (b₁ b₂ : String)
    (hs : s₁ = s₂) (hd : d₁ = d₂) (hb : b₁ = b₂) :
    updateUrl s₁ d₁ b₁ = updateUrl s₂ d₂ b₂ := by
  rw [hs, hd, hb]

/-- Witness for C7 at concrete identical inputs. -/
theorem c7_deterministic_witness :
    updateUrl [("k", ["v"])] [] "https://x.com/" =
      updateUrl [("k", ["v"])] [] "https://x.com/" :=
  c7_deterministic [("k", ["v"])] [("k", ["v"])] [] [] "https://x.com/" "https://x.com/"
    rfl rfl rfl

/-! ### C8: totality and graceful degradation -/

/-- C8: `build` is total — on every snapshot, descriptor table and base URL
(malformed or missing values and unrecognized field types included) it
returns a `BuildResult`; a field with no recorded values or a single empty
value degrades to "no parameter emitted" rather than failing. -/
theorem c8_total (snapshot : FieldValueSnapshot) (descriptors : List FieldDescriptor)
    (baseUrl : String) (key : String) (desc : Option FieldDescriptor) :
    (∃ r : BuildResult, updateUrl snapshot descriptors baseUrl = r) ∧
    encodeField key desc [] = [] ∧
    encodeField key desc [""] = [] :=
  ⟨⟨updateUrl snapshot descriptors baseUrl, rfl⟩, rfl, rfl⟩

end FbQB

namespace FbQB

/-! ### C9: every emitted value is non-empty -/

/-- Membership after `params.set`: every pair is an old pair or the pair
just set. -/
theorem mem_setParam (ps : QueryParameterSet) (k v : String) (p : String × String)
    (h : p ∈ setParam ps k v) : p ∈ ps ∨ p = (k, v) := by
  induction ps with
  | nil =>
    have h' : p ∈ [(k, v)] := h
    exact Or.inr (List.mem_singleton.mp h')
  | cons q rest ih =>
    have h' : p ∈ (if q.1 = k then (k, v) :: removeKey rest k
        else q :: setParam rest k v) := h
    by_cases hq : q.1 = k
    · rw [if_pos hq] at h'
      rcases List.mem_cons.mp h' with h1 | h1
      · exact Or.inr h1
      · exact Or.inl (List.mem_cons_of_mem q (List.mem_filter.mp h1).1)
    · rw [if_neg hq] at h'
      rcases List.mem_cons.mp h' with h1 | h1
      · exact Or.inl (h1 ▸ List.mem_cons_self q rest)
      · rcases ih h1 with h2 | h2
        · exact Or.inl (List.mem_cons_of_mem q h2)
        · exact Or.inr h2

/-- The loop body inserts only non-empty values: `"true"` for a checkbox,
pieces that survived the non-empty filter for a comma field, values guarded
by the emptiness checks otherwise. -/
theorem processKey_preserves_nonempty (ps : QueryParameterSet) (k : String)
    (desc : Option FieldDescriptor) (vs : List String)
    (h : ∀ p ∈ ps, p.2 ≠ "") :
    ∀ p ∈ processKey ps k desc vs, p.2 ≠ "" := by
  have hmap : ∀ (l : List String) (p : String × String),
      p ∈ (l.filter (fun s => s != "")).map (fun v => (k, v)) → p.2 ≠ "" := by
    intro l p hp
    rcases List.mem_map.mp hp with ⟨w, hw, rfl⟩
    simpa using (List.mem_filter.mp hw).2
  have happend : ∀ (l : List String), (∀ p ∈ ps, p.2 ≠ "") →
      ∀ p ∈ ps ++ (l.filter (fun s => s != "")).map (fun v => (k, v)), p.2 ≠ "" := by
    intro l hps p hp
    rcases List.mem_append.mp hp with h1 | h1
    · exact hps p h1
    · exact hmap l p h1
  have hset : ∀ (v : String), v ≠ "" → ∀ p ∈ setParam ps k v, p.2 ≠ "" := by
    intro v hv p hp
    rcases mem_setParam ps k v p hp with h1 | h1
    · exact h p h1
    · rw [h1]; exact hv
  match vs with
  | [] => exact h
  | [v] =>
    by_cases hv : v = ""
    · have he : processKey ps k desc [v] = ps := by
        show (if v = "" then ps else _) = ps
        rw [if_pos hv]
      rw [he]; exact h
    · by_cases hcb : isCheckbox desc = true
      · have he : processKey ps k desc [v] = setParam ps k "true" := by
          show (if v = "" then ps
            else if isCheckbox desc then setParam ps k "true" else _) = _
          rw [if_neg hv, if_pos hcb]
        rw [he]
        exact hset "true" (by decide)
      · by_cases hca : isCommaArray desc = true
        · have he : processKey ps k desc [v] =
              ps ++ (((jsSplitComma v).map jsTrim).filter (fun s => s != "")).map
                (fun w => (k, w)) := by
            show (if v = "" then ps
              else if isCheckbox desc then setParam ps k "true"
              else if isCommaArray desc then
                (((jsSplitComma v).map jsTrim).filter (fun s => s != "")).foldl
                  (fun acc w => appendParam acc k w) ps
              else setParam ps k v) = _
            rw [if_neg hv, if_neg (by simp [hcb]), if_pos hca, foldl_appendParam]
          rw [he]
          exact happend _ h
        · have he : processKey ps k desc [v] = setParam ps k v := by
            show (if v = "" then ps
              else if isCheckbox desc then setParam ps k "true"
              else if isCommaArray desc then
                (((jsSplitComma v).map jsTrim).filter (fun s => s != "")).foldl
                  (fun acc w => appendParam acc k w) ps
              else setParam ps k v) = _
            rw [if_neg hv, if_neg (by simp [hcb]), if_neg (by simp [hca])]
          rw [he]
          exact hset v hv
  | v₁ :: v₂ :: rest =>
    have he : processKey ps k desc (v₁ :: v₂ :: rest) =
        ps ++ ((v₁ :: v₂ :: rest).filter (fun s => s != "")).map (fun w => (k, w)) := by
      show (v₁ :: v₂ :: rest).foldl
          (fun acc v => if v = "" then acc else appendParam acc k v) ps = _
      rw [foldl_appendParam_filter]
    rw [he]
    exact happend _ h

/-- Every pair produced by the whole build loop carries a non-empty value. -/
theorem buildParams_nonempty_values (snapshot : FieldValueSnapshot)
    (descriptors : List FieldDescriptor) :
    ∀ p ∈ buildParams snapshot descriptors, p.2 ≠ "" := by
  have hgen : ∀ (snap : FieldValueSnapshot) (ps : QueryParameterSet),
      (∀ p ∈ ps, p.2 ≠ "") →
      ∀ p ∈ snap.foldl
          (fun a kv => processKey a kv.1 (findDesc descriptors kv.1) kv.2) ps,
        p.2 ≠ "" := by
    intro snap
    induction snap with
    | nil => intro ps hps; exact hps
    | cons kv rest ih =>
      intro ps hps
      rw [List.foldl_cons]
      exact ih _ (processKey_preserves_nonempty _ _ _ _ hps)
  exact hgen snapshot [] (by intro p hp; cases hp)

/-- C9: every `(name, value)` pair in the QueryParameterSet produced by
`build` has a non-empty value string — no branch (checkbox, comma-split,
standard single value, multi-value) ever emits an empty value. -/
theorem c9_values_nonempty (snapshot : FieldValueSnapshot)
    (descriptors : List FieldDescriptor) (p : String × String)
    (hmem : p ∈ buildParams snapshot descriptors) : p.2 ≠ "" :=
  buildParams_nonempty_values snapshot descriptors p hmem

/-- Witness for C9: the pair a checked checkbox contributes. -/
theorem c9_values_nonempty_witness : ("true" : String) ≠ "" :=
  c9_values_nonempty [("k", ["on"])] [⟨"k", "checkbox", none⟩] ("k", "true")
    (by decide)

/-! ### C10: the empty base URL and non-emptiness of the final URL -/

/-- C10: an empty base URL is still normalized with a trailing slash, so
the final URL is `"/"` when the query string is empty and `"/?"` followed
by the query string otherwise; consequently the final URL is never the
empty string for any input. -/
theorem c10_empty_base (snapshot : FieldValueSnapshot)
    (descriptors : List FieldDescriptor) (b : String) :
    ((updateUrl snapshot descriptors "").queryString = "" →
      (updateUrl snapshot descriptors "").finalUrl = "/") ∧
    ((updateUrl snapshot descriptors "").queryString ≠ "" →
      (updateUrl snapshot descriptors "").finalUrl =
        "/?" ++ (updateUrl snapshot descriptors "").queryString) ∧
    (updateUrl snapshot descriptors b).finalUrl ≠ "" := by
  have hlen : ∀ (s : String), s.length ≠ 0 → s ≠ "" := by
    intro s hh he
    exact hh (by rw [he]; rfl)
  have hes : endsWithSlash "" = false := rfl
  refine ⟨fun hq => ?_, fun hq => ?_, ?_⟩
  · simp only [updateUrl] at hq ⊢
    rw [hq]
    simp [hes]
  · simp only [updateUrl] at hq ⊢
    rw [if_neg hq, hes]
    simp [String.append_assoc]
    rw [← String.append_assoc]
    rfl
  · simp only [updateUrl]
    by_cases hsb : endsWithSlash b = true
    · rw [if_pos hsb]
      apply hlen
      rw [String.length_append]
      have hb : b.length ≠ 0 := by
        intro h0
        have hdata : b.data = [] := List.length_eq_zero.mp h0
        have : b.data.getLast? = some '/' := of_decide_eq_true hsb
        rw [hdata] at this
        cases this
      omega
    · rw [if_neg hsb]
      apply hlen
      rw [String.length_append, String.length_append]
      have h1 : ("/" : String).length = 1 := rfl
      omega

/-- Witness for C10 at the empty snapshot and empty base URL. -/
theorem c10_empty_base_witness : (updateUrl [] [] "").finalUrl = "/" :=
  (c10_empty_base [] [] "x").1 (by decide)

end FbQB
